import Mathlib

/-!
Verification of the backward month-search and config-mutation logic of
`Script(Modded).py` (Energy Star score updater).

The script reads a flat sectioned config file, disables polling for every
non-sentinel section, then for each section walks backward month by month
through the metrics API until a score is found, rewriting the section's
endpoint when it is.

The embedding below models the config file as an ordered association list of
sections (mirroring `configparser`), the HTTP layer as an oracle
`fetch : Nat → FetchResult` indexed by the number of calls made so far, and
the config-file write as an oracle `writeOk : Nat → Bool` indexed by the
number of write attempts made so far.  The `while` loop of `get_score` is
embedded with explicit fuel; `none` means the fuel ran out, and the theorems
supply enough fuel for the loop to finish on its own.
-/

set_option autoImplicit false

namespace EnergyScript

/-- Option list of one config section, in file order (`configparser` keeps
insertion order; `set` overwrites the existing key in place). -/
abbrev Opts := List (String × String)

/-- Lookup of a key in a section's option list (first occurrence). -/
def optsGet : Opts → String → Option String
  | [], _ => none
  | (k, v) :: rest, key => if k = key then some v else optsGet rest key

/-- Overwrite a key in a section's option list, appending when absent
(`configparser`'s `set` on an existing section). -/
def optsSet : Opts → String → String → Opts
  | [], key, val => [(key, val)]
  | (k, v) :: rest, key, val =>
    if k = key then (key, val) :: rest else (k, v) :: optsSet rest key val

/-- A named config section. -/
structure CfgSection where
  name : String
  opts : Opts
deriving DecidableEq, Repr

/-- The whole config file: sections in file order. -/
abbrev Config := List CfgSection

/-- The list of section names, as returned by `config.sections()`. -/
def sectionNames (cfg : Config) : List String := cfg.map CfgSection.name

/-- Value of `config.get(s, k)`; `none` models the `NoSectionError` and
`NoOptionError` exceptions. -/
def cfgGet : Config → String → String → Option String
  | [], _, _ => none
  | sec :: rest, s, k => if sec.name = s then optsGet sec.opts k else cfgGet rest s k

/-- `config.has_section(s)`. -/
def cfgHasSection (cfg : Config) (s : String) : Bool :=
  cfg.any (fun sec => sec.name = s)

/-- `config.has_option(s, k)` (on sections that exist; `configparser` would
raise on a missing section, a case none of the embedded call sites reach). -/
def cfgHasOption (cfg : Config) (s : String) (k : String) : Bool :=
  (cfgGet cfg s k).isSome

/-- `config.set(s, k, v)`: rewrite the option inside the named section. -/
def cfgSet : Config → String → String → String → Config
  | [], _, _, _ => []
  | sec :: rest, s, k, v =>
    if sec.name = s then { sec with opts := optsSet sec.opts k v } :: rest
    else sec :: cfgSet rest s k v

/-- The hardcoded weather sentinel section name. -/
def weatherSentinel : String := "rest://WeatherTest3"

/-- Embeds `get_credentials_from_config`: `none` when the section is missing
or lacks either credential option (the caught `NoOptionError`). -/
def get_credentials_from_config (config : Config) (section_name : String) :
    Option (String × String) :=
  if cfgHasSection config section_name then
    match cfgGet config section_name "auth_user",
          cfgGet config section_name "auth_password" with
    | some u, some p => some (u, p)
    | _, _ => none
  else none

/-- Outcome of one HTTP fetch-and-parse round of `get_score`:
a non-empty trimmed score text, an empty body, a `RequestException`
(network or non-2xx status), or any other exception while parsing. -/
inductive FetchResult where
  | found (score : String)
  | empty
  | httpError
  | otherError
deriving DecidableEq, Repr

/-- Return value of `get_score`: `(True, year, month)` or `(False, None, None)`. -/
inductive GetScoreRet where
  | success (year month : Int)
  | failure
deriving DecidableEq, Repr

/-- The month-decrement step shared by the empty-body and both exception
handlers of `get_score`: move to the previous month, wrapping a January
into December of the previous year and counting the wrapped year. -/
def stepBack (year month : Int) (years_checked : Nat) : Int × Int × Nat :=
  if month = 1 then (year - 1, 12, years_checked + 1)
  else (year, month - 1, years_checked)

/-- The metrics URL built by `get_score` (both the fetched URL and the new
endpoint value use this exact format string). -/
def endpointUrl (property_id : String) (year month : Int) : String :=
  "https://portfoliomanager.energystar.gov/ws/property/" ++ property_id ++
    "/metrics?year=" ++ toString year ++ "&month=" ++ toString month

/-- The `while years_checked <= max_years_to_check` loop of `get_score`,
with explicit fuel.  State: `(year, month, years_checked)` plus the
in-memory config, the on-disk file, and the fetch / write-attempt counters.
On a found score the three `config.set` calls happen before the file write;
a failed write raises and is caught by the blanket `except Exception`
handler, which steps back a month exactly like an HTTP error (the in-memory
`config.set` mutations are kept, the file is not written). -/
def gsGo (fetch : Nat → FetchResult) (writeOk : Nat → Bool)
    (section_name property_id : String) (maxY : Nat) :
    Nat → Int → Int → Nat → Config → Config → Nat → Nat →
    Option (GetScoreRet × Config × Config × Nat × Nat)
  | 0, _, _, _, _, _, _, _ => none
  | fuel + 1, year, month, yc, cfg, file, calls, writes =>
    if yc ≤ maxY then
      match get_credentials_from_config cfg section_name with
      | none => some (.failure, cfg, file, calls, writes)
      | some _ =>
        match fetch calls with
        | .found _ =>
          let cfg1 := cfgSet cfg section_name "polling_interval" "999999"
          let cfg2 := cfgSet cfg1 section_name "endpoint"
            (endpointUrl property_id year month)
          let cfg3 := cfgSet cfg2 section_name "polling_interval" "0 0 5 31 2 ?"
          if writeOk writes then
            some (.success year month, cfg3, cfg3, calls + 1, writes + 1)
          else
            let st := stepBack year month yc
            if maxY < st.2.2 then some (.failure, cfg3, file, calls + 1, writes + 1)
            else gsGo fetch writeOk section_name property_id maxY fuel
              st.1 st.2.1 st.2.2 cfg3 file (calls + 1) (writes + 1)
        | .empty =>
          let st := stepBack year month yc
          if maxY < st.2.2 then some (.failure, cfg, file, calls + 1, writes)
          else gsGo fetch writeOk section_name property_id maxY fuel
            st.1 st.2.1 st.2.2 cfg file (calls + 1) writes
        | .httpError =>
          let st := stepBack year month yc
          if maxY < st.2.2 then some (.failure, cfg, file, calls + 1, writes)
          else gsGo fetch writeOk section_name property_id maxY fuel
            st.1 st.2.1 st.2.2 cfg file (calls + 1) writes
        | .otherError =>
          let st := stepBack year month yc
          if maxY < st.2.2 then some (.failure, cfg, file, calls + 1, writes)
          else gsGo fetch writeOk section_name property_id maxY fuel
            st.1 st.2.1 st.2.2 cfg file (calls + 1) writes
    else some (.failure, cfg, file, calls, writes)

/-- Embeds `get_score(property_id, year, month, section_name, config,
config_file, max_years_to_check)`.  The sentinel weather section returns
failure before the loop; otherwise the loop starts with
`years_checked = 0`.  `calls` and `writes` are the ambient fetch and
write-attempt counters (both `0` for a fresh call). -/
def get_score (fetch : Nat → FetchResult) (writeOk : Nat → Bool)
    (property_id : String) (year month : Int) (section_name : String)
    (cfg file : Config) (max_years_to_check : Nat) (fuel : Nat)
    (calls writes : Nat) :
    Option (GetScoreRet × Config × Config × Nat × Nat) :=
  if section_name = weatherSentinel then some (.failure, cfg, file, calls, writes)
  else gsGo fetch writeOk section_name property_id max_years_to_check fuel
    year month 0 cfg file calls writes

/-- Does the character list begin with the given literal pattern? -/
def leadsWith : List Char → List Char → Bool
  | [], _ => true
  | _ :: _, [] => false
  | p :: ps, c :: cs => p = c && leadsWith ps cs

/-- Split off the maximal run of leading decimal digits. -/
def takeDigits : List Char → List Char × List Char
  | [] => ([], [])
  | c :: cs =>
    if c.isDigit then
      let r := takeDigits cs
      (c :: r.1, r.2)
    else ([], c :: cs)

/-- Does the regular expression `/property/(\d+)/metrics` match at the very
start of the list?  If so, return the digit group.  Maximal munch is
faithful here: if the maximal digit run is not followed by `/metrics`,
no shorter non-empty digit run can be either, since the character after a
shorter run is a digit, not `/`. -/
def matchPropAt (s : List Char) : Option (List Char) :=
  let pat := "/property/".toList
  if leadsWith pat s then
    let r := takeDigits (s.drop pat.length)
    if r.1 ≠ [] ∧ leadsWith "/metrics".toList r.2 then some r.1 else none
  else none

/-- Leftmost-match search of `re.search`: try each start position in order. -/
def searchFrom : List Char → Option (List Char)
  | [] => none
  | c :: cs =>
    match matchPropAt (c :: cs) with
    | some d => some d
    | none => searchFrom cs

/-- Embeds `extract_property_id`: the digit group of the first
`/property/(\d+)/metrics` match, or `none` when the pattern never matches. -/
def extract_property_id (endpoint_value : String) : Option String :=
  (searchFrom endpoint_value.toList).map (fun l => String.mk l)

/-- Spec-side notion of a URL containing the `/property/{digits}/metrics`
pattern: some non-empty all-digit segment bracketed by the two literals
occurs somewhere in the string. -/
def hasPropPattern (s : String) : Prop :=
  ∃ a d b : List Char, d ≠ [] ∧ (∀ c ∈ d, c.isDigit) ∧
    s.toList = a ++ "/property/".toList ++ d ++ "/metrics".toList ++ b

/-- The pre-pass loop of `main`: for each section name, when the section is
not the sentinel, has a `polling_interval` option, and its value is not
already `"999999"`, set it to `"999999"` and remember that something
changed.  Returns the mutated in-memory config and the `modified` flag. -/
def prePassGo : List String → Config → Bool → Config × Bool
  | [], cfg, modified => (cfg, modified)
  | s :: rest, cfg, modified =>
    if s ≠ weatherSentinel ∧ cfgHasOption cfg s "polling_interval" then
      if cfgGet cfg s "polling_interval" ≠ some "999999" then
        prePassGo rest (cfgSet cfg s "polling_interval" "999999") true
      else prePassGo rest cfg modified
    else prePassGo rest cfg modified

/-- Decidable form of the pre-pass trigger for one section name: not the
sentinel, and holding a `polling_interval` value other than `"999999"`
(under the has-option guard `config.get` cannot fail, so comparing the
optional value with `some "999999"` is the source's string comparison). -/
def needsPrePass (cfg : Config) (s : String) : Bool :=
  decide (s ≠ weatherSentinel) && cfgHasOption cfg s "polling_interval" &&
    decide (cfgGet cfg s "polling_interval" ≠ some "999999")

/-- Which branch of the per-section dispatch of `main` ran. -/
inductive Outcome where
  | skippedSentinel
  | skippedNoEndpoint
  | skippedNoId
  | updatedOk
  | errored
deriving DecidableEq, Repr

/-- Is the outcome one of the three pre-search skip branches? -/
def Outcome.isSkip (o : Outcome) : Bool :=
  decide (o = .skippedSentinel) || decide (o = .skippedNoEndpoint) ||
    decide (o = .skippedNoId)

/-- The three run-level counters of `main`. -/
structure Tally where
  updated : Nat
  error : Nat
  skipped : Nat
deriving DecidableEq, Repr

/-- The main per-section loop of `main`: skip the sentinel, skip a section
without an `endpoint` option, skip when no property id can be extracted,
otherwise run `get_score` and count it as updated on success and as an
error otherwise (the source's `else: skipped_count += 1` arm is dead,
since `success` is a boolean and `elif not success` already covers every
non-success).  The trace records which branch ran for each section. -/
def mainPass (fetch : Nat → FetchResult) (writeOk : Nat → Bool)
    (year month : Int) (maxY fuel : Nat) :
    List String → Config → Config → Nat → Nat → Tally → List Outcome →
    Option (Tally × Config × Config × Nat × Nat × List Outcome)
  | [], cfg, file, calls, writes, t, tr => some (t, cfg, file, calls, writes, tr)
  | s :: rest, cfg, file, calls, writes, t, tr =>
    if s = weatherSentinel then
      mainPass fetch writeOk year month maxY fuel rest cfg file calls writes
        { t with skipped := t.skipped + 1 } (tr ++ [.skippedSentinel])
    else
      match cfgGet cfg s "endpoint" with
      | none =>
        mainPass fetch writeOk year month maxY fuel rest cfg file calls writes
          { t with skipped := t.skipped + 1 } (tr ++ [.skippedNoEndpoint])
      | some endpoint =>
        match extract_property_id endpoint with
        | none =>
          mainPass fetch writeOk year month maxY fuel rest cfg file calls writes
            { t with skipped := t.skipped + 1 } (tr ++ [.skippedNoId])
        | some property_id =>
          match get_score fetch writeOk property_id year month s cfg file
              maxY fuel calls writes with
          | none => none
          | some (ret, cfg2, file2, calls2, writes2) =>
            match ret with
            | .success _ _ =>
              mainPass fetch writeOk year month maxY fuel rest cfg2 file2
                calls2 writes2 { t with updated := t.updated + 1 }
                (tr ++ [.updatedOk])
            | .failure =>
              mainPass fetch writeOk year month maxY fuel rest cfg2 file2
                calls2 writes2 { t with error := t.error + 1 }
                (tr ++ [.errored])

/-- Embeds `main` (with the ambient date and the two oracles as
parameters): read the config from the file, bail out on an empty section
list, run the pre-pass and persist it once when anything changed
(reloading the config from the file afterward), then run the main
per-section pass.  Returns the final tally, the final on-disk file, and
the per-section outcome trace; `none` when `get_score` ran out of fuel. -/
def main (fetch : Nat → FetchResult) (writeOk : Nat → Bool)
    (year month : Int) (fuel : Nat) (file : Config) :
    Option (Tally × Config × List Outcome) :=
  let cfg := file
  let sections := sectionNames cfg
  if sections.isEmpty then some (⟨0, 0, 0⟩, file, [])
  else
    let pp := prePassGo sections cfg false
    let cfg2 := if pp.2 then pp.1 else cfg
    let file2 := if pp.2 then pp.1 else file
    match mainPass fetch writeOk year month 1 fuel sections cfg2 file2
        0 0 ⟨0, 0, 0⟩ [] with
    | none => none
    | some (t, _, fileF, _, _, tr) => some (t, fileF, tr)

/-- Sample config: one fully populated property section. -/
def sampleCfg : Config :=
  [⟨"s1", [("auth_user", "u"), ("auth_password", "p"),
    ("endpoint",
      "https://portfoliomanager.energystar.gov/ws/property/12345/metrics?year=2023&month=7"),
    ("polling_interval", "999999")]⟩]

/-- Sample config: one property section with no credentials. -/
def noAuthCfg : Config :=
  [⟨"p1", [("endpoint",
      "https://portfoliomanager.energystar.gov/ws/property/123/metrics?year=2024&month=1"),
    ("polling_interval", "999999")]⟩]

/-- Sample config for the pre-pass: one stale section plus the sentinel. -/
def prePassCfg : Config :=
  [⟨"a", [("polling_interval", "5")]⟩,
   ⟨"rest://WeatherTest3", [("polling_interval", "7")]⟩]

/-- Fetch oracle that always reports an empty body. -/
def emptyFetch : Nat → FetchResult := fun _ => .empty

/-- Write oracle that always succeeds. -/
def writeAlways : Nat → Bool := fun _ => true

/-- Write oracle that always fails. -/
def writeNever : Nat → Bool := fun _ => false

/-- Fetch oracle for the C4 scenario: two empty months, then a score. -/
def c4Fetch : Nat → FetchResult := fun n => if n < 2 then .empty else .found "75"

/-- Fetch oracle that always finds a score. -/
def foundFetch : Nat → FetchResult := fun _ => .found "75"

/-- Write oracle that fails on the first attempt only. -/
def writeFailFirst : Nat → Bool := fun w => decide (w ≠ 0)

/-- Expected final config of the C4 scenario: endpoint moved to
`year=2024&month=1`, polling interval parked on the never-fires schedule. -/
def c4Final : Config :=
  [⟨"s1", [("auth_user", "u"), ("auth_password", "p"),
    ("endpoint",
      "https://portfoliomanager.energystar.gov/ws/property/12345/metrics?year=2024&month=1"),
    ("polling_interval", "0 0 5 31 2 ?")]⟩]

/-- Expected final config of the C3 scenario: the month that was found on
the second attempt, after the first write failed. -/
def c3Final : Config :=
  [⟨"s1", [("auth_user", "u"), ("auth_password", "p"),
    ("endpoint",
      "https://portfoliomanager.energystar.gov/ws/property/12345/metrics?year=2024&month=2"),
    ("polling_interval", "0 0 5 31 2 ?")]⟩]

theorem optsGet_optsSet_same (o : Opts) (k v : String) :
    optsGet (optsSet o k v) k = some v := by
  induction o with
  | nil => simp [optsSet, optsGet]
  | cons p rest ih =>
    obtain ⟨pk, pv⟩ := p
    by_cases h : pk = k
    · simp [optsSet, optsGet, h]
    · simp [optsSet, optsGet, h, ih]

theorem optsGet_optsSet_ne (o : Opts) {k k' : String} (v : String) (h : k' ≠ k) :
    optsGet (optsSet o k v) k' = optsGet o k' := by
  have h2 : k ≠ k' := Ne.symm h
  induction o with
  | nil => simp [optsSet, optsGet, h2]
  | cons p rest ih =>
    obtain ⟨pk, pv⟩ := p
    by_cases hk : pk = k
    · subst hk
      simp [optsSet, optsGet, h2, Ne.symm h2]
    · by_cases hk' : pk = k'
      · simp [optsSet, optsGet, hk, hk', h]
      · simp [optsSet, optsGet, hk, hk', ih]

theorem sectionNames_cfgSet (cfg : Config) (s k v : String) :
    sectionNames (cfgSet cfg s k v) = sectionNames cfg := by
  induction cfg with
  | nil => rfl
  | cons sec rest ih =>
    by_cases h : sec.name = s
    · simp [cfgSet, sectionNames, h]
    · simp [cfgSet, sectionNames, h]
      simpa [sectionNames] using ih

theorem cfgGet_cfgSet_ne_sec (cfg : Config) {s s' : String} (k v k' : String)
    (h : s' ≠ s) : cfgGet (cfgSet cfg s k v) s' k' = cfgGet cfg s' k' := by
  have h2 : s ≠ s' := Ne.symm h
  induction cfg with
  | nil => rfl
  | cons sec rest ih =>
    by_cases hs : sec.name = s
    · simp [cfgSet, cfgGet, hs, h2]
    · by_cases hs' : sec.name = s'
      · have hss : ¬s' = s := hs' ▸ hs
        simp [cfgSet, cfgGet, hs, hs', hss]
      · simp [cfgSet, cfgGet, hs, hs', ih]

theorem cfgGet_cfgSet_ne_key (cfg : Config) (s : String) {k k' : String}
    (v : String) (s' : String) (h : k' ≠ k) :
    cfgGet (cfgSet cfg s k v) s' k' = cfgGet cfg s' k' := by
  induction cfg with
  | nil => rfl
  | cons sec rest ih =>
    by_cases hs : sec.name = s
    · by_cases hs' : s = s'
      · subst hs'
        simp [cfgSet, cfgGet, hs, optsGet_optsSet_ne _ _ h]
      · simp [cfgSet, cfgGet, hs, hs']
    · by_cases hs' : sec.name = s'
      · have hss : ¬s' = s := hs' ▸ hs
        simp [cfgSet, cfgGet, hs, hs', hss]
      · simp [cfgSet, cfgGet, hs, hs', ih]

theorem cfgGet_cfgSet_same (cfg : Config) {s : String} (k v : String)
    (h : cfgHasSection cfg s = true) :
    cfgGet (cfgSet cfg s k v) s k = some v := by
  induction cfg with
  | nil => simp [cfgHasSection] at h
  | cons sec rest ih =>
    by_cases hs : sec.name = s
    · simp [cfgSet, cfgGet, hs, optsGet_optsSet_same]
    · have h' : cfgHasSection rest s = true := by
        simpa [cfgHasSection, hs] using h
      simp [cfgSet, cfgGet, hs, ih h']

theorem cfgHasSection_cfgSet (cfg : Config) (s k v s' : String) :
    cfgHasSection (cfgSet cfg s k v) s' = cfgHasSection cfg s' := by
  induction cfg with
  | nil => rfl
  | cons sec rest ih =>
    by_cases hs : sec.name = s
    · simp [cfgSet, cfgHasSection, hs]
    · have ih' := ih
      simp only [cfgHasSection] at ih'
      simp [cfgSet, cfgHasSection, hs, ih']

theorem cfgHasSection_of_get {cfg : Config} {s k : String}
    (h : (cfgGet cfg s k).isSome = true) : cfgHasSection cfg s = true := by
  induction cfg with
  | nil => simp [cfgGet] at h
  | cons sec rest ih =>
    by_cases hs : sec.name = s
    · simp [cfgHasSection, hs]
    · simp only [cfgGet, hs, if_neg, ite_false] at h
      have h2 := ih h
      simp only [cfgHasSection] at h2 ⊢
      simp only [List.any_cons, h2, Bool.or_true]

theorem get_credentials_cfgSet (cfg : Config) (s k v s' : String)
    (h1 : k ≠ "auth_user") (h2 : k ≠ "auth_password") :
    get_credentials_from_config (cfgSet cfg s k v) s' =
      get_credentials_from_config cfg s' := by
  unfold get_credentials_from_config
  rw [cfgHasSection_cfgSet,
    cfgGet_cfgSet_ne_key cfg s v s' (fun hh => h1 hh.symm),
    cfgGet_cfgSet_ne_key cfg s v s' (fun hh => h2 hh.symm)]

theorem leadsWith_sound {p s : List Char} (h : leadsWith p s = true) :
    s = p ++ s.drop p.length := by
  induction p generalizing s with
  | nil => simp
  | cons x xs ih =>
    cases s with
    | nil => simp [leadsWith] at h
    | cons c cs =>
      simp only [leadsWith, Bool.and_eq_true, decide_eq_true_eq] at h
      obtain ⟨hx, hrest⟩ := h
      simpa [hx] using ih hrest

theorem leadsWith_append (p t : List Char) : leadsWith p (p ++ t) = true := by
  induction p with
  | nil => rfl
  | cons x xs ih => simp [leadsWith, ih]

theorem takeDigits_spec (s : List Char) :
    s = (takeDigits s).1 ++ (takeDigits s).2 ∧
      ∀ c ∈ (takeDigits s).1, c.isDigit = true := by
  induction s with
  | nil => simp [takeDigits]
  | cons c cs ih =>
    by_cases hc : c.isDigit
    · simp only [takeDigits, hc, if_pos]
      refine ⟨by simpa using ih.1, ?_⟩
      intro x hx
      simp only [List.mem_cons] at hx
      rcases hx with h | h
      · rw [h]; exact hc
      · exact ih.2 x h
    · simp [takeDigits, hc]

theorem takeDigits_of_append (d r : List Char) (hd : ∀ c ∈ d, c.isDigit = true)
    (hr : ∀ c cs, r = c :: cs → c.isDigit = false) :
    takeDigits (d ++ r) = (d, r) := by
  induction d with
  | nil =>
    cases r with
    | nil => rfl
    | cons c cs => simp [takeDigits, hr c cs rfl]
  | cons c d' ih =>
    have hc : c.isDigit = true := hd c (List.mem_cons_self c d')
    have ih' := ih (fun x hx => hd x (List.mem_cons_of_mem c hx))
    simp [takeDigits, hc, ih']

theorem matchPropAt_sound {s d : List Char} (h : matchPropAt s = some d) :
    ∃ b, s = "/property/".toList ++ d ++ "/metrics".toList ++ b ∧
      d ≠ [] ∧ ∀ c ∈ d, c.isDigit = true := by
  simp only [matchPropAt] at h
  split at h
  case isTrue hl =>
    split at h
    case isTrue hcond =>
      obtain ⟨hne, hmet⟩ := hcond
      set r := takeDigits (s.drop "/property/".toList.length) with hrdef
      have hd : r.1 = d := by injection h
      have hsplit := takeDigits_spec (s.drop "/property/".toList.length)
      rw [← hrdef] at hsplit
      have hmet2 := leadsWith_sound hmet
      refine ⟨r.2.drop "/metrics".toList.length, ?_, ?_, ?_⟩
      · have hs2 := leadsWith_sound hl
        rw [hs2, hsplit.1, hmet2, hd]
        simp
      · rw [← hd]; exact hne
      · rw [← hd]
        exact hsplit.2
    case isFalse => exact absurd h (by simp)
  case isFalse => exact absurd h (by simp)

theorem matchPropAt_complete (d b : List Char) (hne : d ≠ [])
    (hd : ∀ c ∈ d, c.isDigit = true) :
    matchPropAt ("/property/".toList ++ d ++ "/metrics".toList ++ b) = some d := by
  have hhead : ∀ c cs, "/metrics".toList ++ b = c :: cs → c.isDigit = false := by
    intro c cs hc
    have : c = '/' := by
      have : "/metrics".toList ++ b = '/' :: ("metrics".toList ++ b) := rfl
      rw [this] at hc
      exact (List.cons_eq_cons.mp hc.symm).1
    rw [this]; rfl
  have harr : "/property/".toList ++ d ++ "/metrics".toList ++ b =
      "/property/".toList ++ (d ++ ("/metrics".toList ++ b)) := by simp
  rw [harr]
  unfold matchPropAt
  rw [if_pos (leadsWith_append _ _)]
  rw [List.drop_left]
  rw [takeDigits_of_append d ("/metrics".toList ++ b) hd hhead]
  simp [hne, leadsWith]

theorem searchFrom_sound {l d : List Char} (h : searchFrom l = some d) :
    ∃ a b, l = a ++ "/property/".toList ++ d ++ "/metrics".toList ++ b ∧
      d ≠ [] ∧ ∀ c ∈ d, c.isDigit = true := by
  induction l with
  | nil => simp [searchFrom] at h
  | cons c cs ih =>
    unfold searchFrom at h
    cases hm : matchPropAt (c :: cs) with
    | some d' =>
      rw [hm] at h
      have hd : d' = d := by injection h
      subst hd
      obtain ⟨b, heq, hne, hdig⟩ := matchPropAt_sound hm
      exact ⟨[], b, by simpa using heq, hne, hdig⟩
    | none =>
      rw [hm] at h
      obtain ⟨a, b, heq, hne, hdig⟩ := ih h
      exact ⟨c :: a, b, by simp [heq], hne, hdig⟩

theorem searchFrom_isSome_of_matchAt {l d : List Char}
    (h : matchPropAt l = some d) : (searchFrom l).isSome = true := by
  cases l with
  | nil => simp [matchPropAt, leadsWith] at h
  | cons c cs =>
    unfold searchFrom
    rw [h]
    rfl

theorem searchFrom_isSome_of (a d b : List Char) (hne : d ≠ [])
    (hd : ∀ c ∈ d, c.isDigit = true) :
    (searchFrom (a ++ "/property/".toList ++ d ++ "/metrics".toList ++ b)).isSome
      = true := by
  induction a with
  | nil =>
    refine searchFrom_isSome_of_matchAt (d := d) ?_
    simpa using matchPropAt_complete d b hne hd
  | cons c a' ih =>
    have harr : c :: a' ++ "/property/".toList ++ d ++ "/metrics".toList ++ b =
        c :: (a' ++ "/property/".toList ++ d ++ "/metrics".toList ++ b) := by simp
    rw [harr]
    unfold searchFrom
    cases hm : matchPropAt
        (c :: (a' ++ "/property/".toList ++ d ++ "/metrics".toList ++ b)) with
    | some d' => rfl
    | none => exact ih

theorem stepBack_one (year : Int) (yc : Nat) :
    stepBack year 1 yc = (year - 1, 12, yc + 1) := by
  simp [stepBack]

theorem stepBack_ne (year : Int) {month : Int} (yc : Nat) (h : ¬ month = 1) :
    stepBack year month yc = (year, month - 1, yc) := by
  simp [stepBack, h]

theorem gsGo_exhaust (fetch : Nat → FetchResult) (writeOk : Nat → Bool)
    (section_name property_id : String) (maxY : Nat)
    (hf : ∀ n, fetch n = .empty ∨ fetch n = .httpError ∨ fetch n = .otherError) :
    ∀ (fuel : Nat) (year month : Int) (yc : Nat) (cfg file : Config)
      (calls writes : Nat),
      (get_credentials_from_config cfg section_name).isSome = true →
      1 ≤ month → month ≤ 12 → yc ≤ maxY →
      month.toNat + 12 * (maxY - yc) ≤ fuel →
      gsGo fetch writeOk section_name property_id maxY fuel year month yc cfg
          file calls writes =
        some (.failure, cfg, file,
          calls + (month.toNat + 12 * (maxY - yc)), writes) := by
  intro fuel
  induction fuel with
  | zero =>
    intro year month yc cfg file calls writes hc h1 h12 hyc hfuel
    exfalso; omega
  | succ f ih =>
    intro year month yc cfg file calls writes hc h1 h12 hyc hfuel
    obtain ⟨cred, hcred⟩ := Option.isSome_iff_exists.mp hc
    simp only [gsGo, if_pos hyc, hcred]
    rcases hf calls with hfe | hfe | hfe <;> rw [hfe] <;>
    · by_cases hm : month = 1
      · subst hm
        rw [stepBack_one year yc]
        dsimp only
        by_cases hend : maxY < yc + 1
        · rw [if_pos hend]
          have heq : calls + 1 = calls + (Int.toNat 1 + 12 * (maxY - yc)) := by
            omega
          rw [heq]
        · rw [if_neg hend]
          rw [ih (year - 1) 12 (yc + 1) cfg file (calls + 1) writes hc
            (by omega) (by omega) (by omega) (by omega)]
          have heq : calls + 1 + (Int.toNat 12 + 12 * (maxY - (yc + 1))) =
              calls + (Int.toNat 1 + 12 * (maxY - yc)) := by omega
          rw [heq]
      · rw [stepBack_ne year yc hm]
        dsimp only
        have hend : ¬ maxY < yc := by omega
        rw [if_neg hend]
        rw [ih year (month - 1) yc cfg file (calls + 1) writes hc
          (by omega) (by omega) hyc (by omega)]
        have heq : calls + 1 + (Int.toNat (month - 1) + 12 * (maxY - yc)) =
            calls + (Int.toNat month + 12 * (maxY - yc)) := by omega
        rw [heq]

theorem get_credentials_set3 (cfg : Config) (sec pid : String)
    (year month : Int) (s' : String) :
    get_credentials_from_config
      (cfgSet (cfgSet (cfgSet cfg sec "polling_interval" "999999")
        sec "endpoint" (endpointUrl pid year month))
        sec "polling_interval" "0 0 5 31 2 ?") s' =
    get_credentials_from_config cfg s' := by
  rw [get_credentials_cfgSet _ _ _ _ _ (by decide) (by decide),
    get_credentials_cfgSet _ _ _ _ _ (by decide) (by decide),
    get_credentials_cfgSet _ _ _ _ _ (by decide) (by decide)]

theorem gsGo_exhaust_wfail (fetch : Nat → FetchResult) (writeOk : Nat → Bool)
    (section_name property_id : String) (maxY : Nat)
    (hf : ∀ n, ∃ sc, fetch n = .found sc) (hw : ∀ w, writeOk w = false) :
    ∀ (fuel : Nat) (year month : Int) (yc : Nat) (cfg file : Config)
      (calls writes : Nat),
      (get_credentials_from_config cfg section_name).isSome = true →
      1 ≤ month → month ≤ 12 → yc ≤ maxY →
      month.toNat + 12 * (maxY - yc) ≤ fuel →
      ∃ cfg2, gsGo fetch writeOk section_name property_id maxY fuel year month
          yc cfg file calls writes =
        some (.failure, cfg2, file,
          calls + (month.toNat + 12 * (maxY - yc)),
          writes + (month.toNat + 12 * (maxY - yc))) := by
  intro fuel
  induction fuel with
  | zero =>
    intro year month yc cfg file calls writes hc h1 h12 hyc hfuel
    exfalso; omega
  | succ f ih =>
    intro year month yc cfg file calls writes hc h1 h12 hyc hfuel
    obtain ⟨cred, hcred⟩ := Option.isSome_iff_exists.mp hc
    obtain ⟨sc, hfe⟩ := hf calls
    simp only [gsGo, if_pos hyc, hcred]
    rw [hfe, hw writes]
    simp only [Bool.false_eq_true, if_false]
    have hc3 : (get_credentials_from_config
        (cfgSet (cfgSet (cfgSet cfg section_name "polling_interval" "999999")
          section_name "endpoint" (endpointUrl property_id year month))
          section_name "polling_interval" "0 0 5 31 2 ?")
        section_name).isSome = true := by
      rw [get_credentials_set3]; exact hc
    by_cases hm : month = 1
    · subst hm
      rw [stepBack_one year yc]
      dsimp only
      by_cases hend : maxY < yc + 1
      · rw [if_pos hend]
        have heq1 : calls + 1 = calls + (Int.toNat 1 + 12 * (maxY - yc)) := by
          omega
        have heq2 : writes + 1 = writes + (Int.toNat 1 + 12 * (maxY - yc)) := by
          omega
        rw [heq1, heq2]
        exact ⟨_, rfl⟩
      · rw [if_neg hend]
        obtain ⟨cfg2, hrec⟩ := ih (year - 1) 12 (yc + 1) _ file (calls + 1)
          (writes + 1) hc3 (by omega) (by omega) (by omega) (by omega)
        refine ⟨cfg2, ?_⟩
        rw [hrec]
        have heq1 : calls + 1 + (Int.toNat 12 + 12 * (maxY - (yc + 1))) =
            calls + (Int.toNat 1 + 12 * (maxY - yc)) := by omega
        have heq2 : writes + 1 + (Int.toNat 12 + 12 * (maxY - (yc + 1))) =
            writes + (Int.toNat 1 + 12 * (maxY - yc)) := by omega
        rw [heq1, heq2]
    · rw [stepBack_ne year yc hm]
      dsimp only
      have hend : ¬ maxY < yc := by omega
      rw [if_neg hend]
      obtain ⟨cfg2, hrec⟩ := ih year (month - 1) yc _ file (calls + 1)
        (writes + 1) hc3 (by omega) (by omega) hyc (by omega)
      refine ⟨cfg2, ?_⟩
      rw [hrec]
      have heq1 : calls + 1 + (Int.toNat (month - 1) + 12 * (maxY - yc)) =
          calls + (Int.toNat month + 12 * (maxY - yc)) := by omega
      have heq2 : writes + 1 + (Int.toNat (month - 1) + 12 * (maxY - yc)) =
          writes + (Int.toNat month + 12 * (maxY - yc)) := by omega
      rw [heq1, heq2]

theorem prePassGo_names (L : List String) : ∀ (cfg : Config) (m : Bool),
    sectionNames (prePassGo L cfg m).1 = sectionNames cfg := by
  induction L with
  | nil => intro cfg m; rfl
  | cons s rest ih =>
    intro cfg m
    simp only [prePassGo]
    split
    · split
      · rw [ih, sectionNames_cfgSet]
      · exact ih cfg m
    · exact ih cfg m

theorem prePassGo_get_notMem (L : List String) :
    ∀ (cfg : Config) (m : Bool) {n : String} (k : String), n ∉ L →
      cfgGet (prePassGo L cfg m).1 n k = cfgGet cfg n k := by
  induction L with
  | nil => intro cfg m n k _; rfl
  | cons s rest ih =>
    intro cfg m n k hn
    have hns : n ≠ s := fun h => hn (h ▸ List.mem_cons_self s rest)
    have hnr : n ∉ rest := fun h => hn (List.mem_cons_of_mem s h)
    simp only [prePassGo]
    split
    · split
      · rw [ih _ _ _ hnr, cfgGet_cfgSet_ne_sec _ _ _ _ hns]
      · exact ih _ _ _ hnr
    · exact ih _ _ _ hnr

theorem prePassGo_post (L : List String) : ∀ (cfg : Config) (m : Bool),
    L.Nodup → ∀ n ∈ L, n ≠ weatherSentinel →
    ∀ v, cfgGet (prePassGo L cfg m).1 n "polling_interval" = some v →
      v = "999999" := by
  induction L with
  | nil =>
    intro cfg m _ n hn
    simp at hn
  | cons s rest ih =>
    intro cfg m hnd n hn hnsent v hv
    obtain ⟨hs, hnd2⟩ := List.nodup_cons.mp hnd
    rcases List.mem_cons.mp hn with h | h
    · subst h
      simp only [prePassGo] at hv
      split at hv
      case isTrue hcond =>
        split at hv
        case isTrue hne =>
          rw [prePassGo_get_notMem rest _ _ _ hs] at hv
          have hsec : cfgHasSection cfg n = true :=
            cfgHasSection_of_get hcond.2
          rw [cfgGet_cfgSet_same cfg _ _ hsec] at hv
          exact (Option.some_inj.mp hv).symm
        case isFalse hne =>
          rw [prePassGo_get_notMem rest _ _ _ hs] at hv
          have heq : cfgGet cfg n "polling_interval" = some "999999" := by
            by_contra hcc
            exact hne hcc
          rw [heq] at hv
          exact (Option.some_inj.mp hv).symm
      case isFalse hcond =>
        rw [prePassGo_get_notMem rest _ _ _ hs] at hv
        have hnop : cfgHasOption cfg n "polling_interval" = false := by
          rcases not_and_or.mp hcond with h1 | h2
          · exact absurd hnsent h1
          · exact Bool.not_eq_true _ ▸ (by simpa using h2)
        unfold cfgHasOption at hnop
        rw [hv] at hnop
        simp at hnop
    · simp only [prePassGo] at hv
      split at hv
      · split at hv
        · exact ih _ _ hnd2 n h hnsent v hv
        · exact ih _ _ hnd2 n h hnsent v hv
      · exact ih _ _ hnd2 n h hnsent v hv

theorem prePassGo_true (L : List String) : ∀ cfg : Config,
    (prePassGo L cfg true).2 = true := by
  induction L with
  | nil => intro cfg; rfl
  | cons s rest ih =>
    intro cfg
    simp only [prePassGo]
    split
    · split
      · exact ih _
      · exact ih _
    · exact ih _

theorem needsPrePass_cfgSet_ne (cfg : Config) (s k v n : String) (h : n ≠ s) :
    needsPrePass (cfgSet cfg s k v) n = needsPrePass cfg n := by
  unfold needsPrePass cfgHasOption
  rw [cfgGet_cfgSet_ne_sec _ _ _ _ h]

theorem prePassGo_modified (L : List String) : ∀ (cfg : Config) (m : Bool),
    L.Nodup → (prePassGo L cfg m).2 = (m || L.any (needsPrePass cfg)) := by
  induction L with
  | nil => intro cfg m _; simp [prePassGo]
  | cons s rest ih =>
    intro cfg m hnd
    obtain ⟨hs, hnd2⟩ := List.nodup_cons.mp hnd
    simp only [prePassGo]
    split
    case isTrue hcond =>
      split
      case isTrue hne =>
        have hnp : needsPrePass cfg s = true := by
          unfold needsPrePass
          simp [hcond.1, hcond.2, hne]
        rw [prePassGo_true]
        simp [List.any_cons, hnp]
      case isFalse hne =>
        have hnp : needsPrePass cfg s = false := by
          unfold needsPrePass
          simp only [not_not] at hne
          simp [hne]
        rw [ih cfg m hnd2]
        simp [List.any_cons, hnp]
    case isFalse hcond =>
      have hnp : needsPrePass cfg s = false := by
        unfold needsPrePass
        rcases not_and_or.mp hcond with h1 | h2
        · simp only [not_not] at h1
          simp [h1]
        · have : cfgHasOption cfg s "polling_interval" = false := by
            simpa using h2
          simp [this]
      rw [ih cfg m hnd2]
      simp [List.any_cons, hnp]

theorem prePassGo_noop (L : List String) : ∀ (cfg : Config) (m : Bool),
    (∀ n ∈ L, needsPrePass cfg n = false) → prePassGo L cfg m = (cfg, m) := by
  induction L with
  | nil => intro cfg m _; rfl
  | cons s rest ih =>
    intro cfg m hall
    have hrest : ∀ n ∈ rest, needsPrePass cfg n = false :=
      fun n hn => hall n (List.mem_cons_of_mem s hn)
    simp only [prePassGo]
    split
    case isTrue hcond =>
      split
      case isTrue hne =>
        exfalso
        have hs := hall s (List.mem_cons_self s rest)
        unfold needsPrePass at hs
        simp [hcond.1, hcond.2, hne] at hs
      case isFalse hne => exact ih cfg m hrest
    case isFalse hcond => exact ih cfg m hrest

theorem get_score_empty_fail (fetch : Nat → FetchResult) (writeOk : Nat → Bool)
    (property_id : String) (year month : Int) (section_name : String)
    (cfg file : Config) (fuel calls writes : Nat)
    (hf : ∀ n, fetch n = .empty) (hm1 : 1 ≤ month) (hm2 : month ≤ 12)
    (hfuel : 26 ≤ fuel) :
    ∃ calls2,
      get_score fetch writeOk property_id year month section_name cfg file
        1 fuel calls writes = some (.failure, cfg, file, calls2, writes) := by
  unfold get_score
  by_cases hsec : section_name = weatherSentinel
  · rw [if_pos hsec]; exact ⟨calls, rfl⟩
  · rw [if_neg hsec]
    cases hcred : get_credentials_from_config cfg section_name with
    | none =>
      obtain ⟨f, rfl⟩ : ∃ f, fuel = f + 1 := ⟨fuel - 1, by omega⟩
      refine ⟨calls, ?_⟩
      simp only [gsGo, if_pos (Nat.zero_le 1), hcred]
    | some c =>
      refine ⟨calls + (month.toNat + 12 * (1 - 0)), ?_⟩
      exact gsGo_exhaust fetch writeOk section_name property_id 1
        (fun n => Or.inl (hf n)) fuel year month 0 cfg file calls writes
        (by rw [hcred]; rfl) hm1 hm2 (by omega) (by omega)

theorem mainPass_empty_noop (fetch : Nat → FetchResult) (writeOk : Nat → Bool)
    (year month : Int) (fuel : Nat) (hf : ∀ n, fetch n = .empty)
    (hm1 : 1 ≤ month) (hm2 : month ≤ 12) (hfuel : 26 ≤ fuel) :
    ∀ (L : List String) (cfg file : Config) (calls writes : Nat) (t : Tally)
      (tr : List Outcome),
      ∃ t2 calls2 tr2,
        mainPass fetch writeOk year month 1 fuel L cfg file calls writes t tr =
          some (t2, cfg, file, calls2, writes, tr2) := by
  intro L
  induction L with
  | nil =>
    intro cfg file calls writes t tr
    exact ⟨t, calls, tr, rfl⟩
  | cons s rest ih =>
    intro cfg file calls writes t tr
    simp only [mainPass]
    by_cases hsent : s = weatherSentinel
    · rw [if_pos hsent]
      exact ih cfg file calls writes _ _
    · rw [if_neg hsent]
      cases hep : cfgGet cfg s "endpoint" with
      | none =>
        dsimp only
        exact ih cfg file calls writes _ _
      | some ep =>
        dsimp only
        cases hex : extract_property_id ep with
        | none =>
          dsimp only
          exact ih cfg file calls writes _ _
        | some pid =>
          dsimp only
          obtain ⟨calls2, hgs⟩ := get_score_empty_fail fetch writeOk pid year
            month s cfg file fuel calls writes hf hm1 hm2 hfuel
          rw [hgs]
          dsimp only
          exact ih cfg file calls2 writes _ _

theorem mainPass_counts (fetch : Nat → FetchResult) (writeOk : Nat → Bool)
    (year month : Int) (maxY fuel : Nat) :
    ∀ (L : List String) (cfg file : Config) (calls writes : Nat) (t : Tally)
      (tr : List Outcome) (t2 : Tally) (cfg2 file2 : Config)
      (calls2 writes2 : Nat) (tr2 : List Outcome),
      mainPass fetch writeOk year month maxY fuel L cfg file calls writes t tr =
        some (t2, cfg2, file2, calls2, writes2, tr2) →
      ∃ ds : List Outcome, tr2 = tr ++ ds ∧ ds.length = L.length ∧
        t2.updated = t.updated +
          (ds.filter (fun o => o = Outcome.updatedOk)).length ∧
        t2.error = t.error +
          (ds.filter (fun o => o = Outcome.errored)).length ∧
        t2.skipped = t.skipped + (ds.filter (fun o => o.isSkip)).length := by
  intro L
  induction L with
  | nil =>
    intro cfg file calls writes t tr t2 cfg2 file2 calls2 writes2 tr2 h
    simp only [mainPass, Option.some_inj, Prod.mk.injEq] at h
    obtain ⟨h1, _, _, _, _, h6⟩ := h
    refine ⟨[], ?_, ?_, ?_, ?_, ?_⟩ <;> simp [← h6, ← h1]
  | cons s rest ih =>
    intro cfg file calls writes t tr t2 cfg2 file2 calls2 writes2 tr2 h
    simp only [mainPass] at h
    by_cases hsent : s = weatherSentinel
    · rw [if_pos hsent] at h
      obtain ⟨ds, hds, hlen, hu, he, hs⟩ := ih _ _ _ _ _ _ _ _ _ _ _ _ h
      refine ⟨Outcome.skippedSentinel :: ds, ?_, ?_, ?_, ?_, ?_⟩
      · simpa using hds
      · simpa using hlen
      · simpa [List.filter_cons, Outcome.isSkip] using hu
      · simpa [List.filter_cons, Outcome.isSkip] using he
      · simp only [List.filter_cons, Outcome.isSkip] at hs ⊢
        simp at hs ⊢
        omega
    · rw [if_neg hsent] at h
      cases hep : cfgGet cfg s "endpoint" with
      | none =>
        rw [hep] at h
        dsimp only at h
        obtain ⟨ds, hds, hlen, hu, he, hs⟩ := ih _ _ _ _ _ _ _ _ _ _ _ _ h
        refine ⟨Outcome.skippedNoEndpoint :: ds, ?_, ?_, ?_, ?_, ?_⟩
        · simpa using hds
        · simpa using hlen
        · simpa [List.filter_cons, Outcome.isSkip] using hu
        · simpa [List.filter_cons, Outcome.isSkip] using he
        · simp only [List.filter_cons, Outcome.isSkip] at hs ⊢
          simp at hs ⊢
          omega
      | some ep =>
        rw [hep] at h
        dsimp only at h
        cases hex : extract_property_id ep with
        | none =>
          rw [hex] at h
          dsimp only at h
          obtain ⟨ds, hds, hlen, hu, he, hs⟩ := ih _ _ _ _ _ _ _ _ _ _ _ _ h
          refine ⟨Outcome.skippedNoId :: ds, ?_, ?_, ?_, ?_, ?_⟩
          · simpa using hds
          · simpa using hlen
          · simpa [List.filter_cons, Outcome.isSkip] using hu
          · simpa [List.filter_cons, Outcome.isSkip] using he
          · simp only [List.filter_cons, Outcome.isSkip] at hs ⊢
            simp at hs ⊢
            omega
        | some pid =>
          rw [hex] at h
          dsimp only at h
          cases hgs : get_score fetch writeOk pid year month s cfg file maxY
              fuel calls writes with
          | none =>
            rw [hgs] at h
            exact absurd h (by simp)
          | some res =>
            rw [hgs] at h
            obtain ⟨ret, cfg3, file3, calls3, writes3⟩ := res
            dsimp only at h
            cases ret with
            | success y m =>
              obtain ⟨ds, hds, hlen, hu, he, hs⟩ :=
                ih _ _ _ _ _ _ _ _ _ _ _ _ h
              refine ⟨Outcome.updatedOk :: ds, ?_, ?_, ?_, ?_, ?_⟩
              · simpa using hds
              · simpa using hlen
              · simp only [List.filter_cons, Outcome.isSkip] at hu ⊢
                simp at hu ⊢
                omega
              · simpa [List.filter_cons, Outcome.isSkip] using he
              · simpa [List.filter_cons, Outcome.isSkip] using hs
            | failure =>
              obtain ⟨ds, hds, hlen, hu, he, hs⟩ :=
                ih _ _ _ _ _ _ _ _ _ _ _ _ h
              refine ⟨Outcome.errored :: ds, ?_, ?_, ?_, ?_, ?_⟩
              · simpa using hds
              · simpa using hlen
              · simpa [List.filter_cons, Outcome.isSkip] using hu
              · simp only [List.filter_cons, Outcome.isSkip] at he ⊢
                simp at he ⊢
                omega
              · simpa [List.filter_cons, Outcome.isSkip] using hs

theorem needsPrePass_iff (cfg : Config) (n : String) :
    needsPrePass cfg n = true ↔
      n ≠ weatherSentinel ∧
        ∃ v, cfgGet cfg n "polling_interval" = some v ∧ v ≠ "999999" := by
  unfold needsPrePass cfgHasOption
  cases h : cfgGet cfg n "polling_interval" <;> simp [h]

theorem outcome_filter_partition (ds : List Outcome) :
    (ds.filter (fun o => o = Outcome.updatedOk)).length +
      (ds.filter (fun o => o = Outcome.errored)).length +
      (ds.filter (fun o => Outcome.isSkip o)).length = ds.length := by
  induction ds with
  | nil => rfl
  | cons o rest ih =>
    cases o <;> simp [List.filter_cons, Outcome.isSkip] at ih ⊢ <;> omega

/-- Claim C9: property-id extraction returns `"12345"` on
`"https://host/ws/property/12345/metrics?year=2024&month=1"`, and returns
`none` on every string that does not contain the
`/property/{digits}/metrics` pattern. -/
theorem c9_extract_property_id :
    extract_property_id
        "https://host/ws/property/12345/metrics?year=2024&month=1" =
      some "12345" ∧
    ∀ s : String, ¬ hasPropPattern s → extract_property_id s = none := by
  constructor
  · rfl
  · intro s hno
    unfold extract_property_id
    cases hsf : searchFrom s.toList with
    | none => rfl
    | some d =>
      exfalso
      obtain ⟨a, b, heq, hne, hdig⟩ := searchFrom_sound hsf
      exact hno ⟨a, d, b, hne, hdig, by simpa using heq⟩

/-- Witness for C9 at a concrete pattern-free URL: the hypothesis
`hasPropPattern` is refuted by computing the search over the string. -/
theorem c9_witness : extract_property_id "https://example.com/home" = none := by
  apply c9_extract_property_id.2 "https://example.com/home"
  rintro ⟨a, d, b, hne, hdig, heq⟩
  have hs := searchFrom_isSome_of a d b hne hdig
  rw [show a ++ "/property/".toList ++ d ++ "/metrics".toList ++ b =
    "https://example.com/home".toList from by rw [← heq]] at hs
  exact absurd hs (by decide)

/-- Claim C5: on an `Empty` or `HttpError` result the search decrements the
month, wrapping a January to December of the previous year and counting the
wrapped year; in particular `(2024, 1)` steps to `(2023, 12)`; and one loop
iteration of `get_score` on such a result continues at exactly that stepped
state (or returns failure when the wrap exhausts the year budget). -/
theorem c5_step_back :
    (∀ (year : Int) (yc : Nat), stepBack year 1 yc = (year - 1, 12, yc + 1)) ∧
    (∀ (year month : Int) (yc : Nat), month ≠ 1 →
      stepBack year month yc = (year, month - 1, yc)) ∧
    stepBack 2024 1 0 = (2023, 12, 1) ∧
    (∀ (fetch : Nat → FetchResult) (writeOk : Nat → Bool)
      (section_name property_id : String) (maxY fuel : Nat)
      (year month : Int) (yc : Nat) (cfg file : Config) (calls writes : Nat),
      yc ≤ maxY →
      (get_credentials_from_config cfg section_name).isSome = true →
      (fetch calls = .empty ∨ fetch calls = .httpError) →
      gsGo fetch writeOk section_name property_id maxY (fuel + 1) year month yc
          cfg file calls writes =
        if maxY < (stepBack year month yc).2.2 then
          some (.failure, cfg, file, calls + 1, writes)
        else gsGo fetch writeOk section_name property_id maxY fuel
          (stepBack year month yc).1 (stepBack year month yc).2.1
          (stepBack year month yc).2.2 cfg file (calls + 1) writes) := by
  refine ⟨fun year yc => stepBack_one year yc,
    fun year month yc h => stepBack_ne year yc h, stepBack_one 2024 0, ?_⟩
  intro fetch writeOk section_name property_id maxY fuel year month yc cfg file
    calls writes hyc hc hfe
  obtain ⟨cred, hcred⟩ := Option.isSome_iff_exists.mp hc
  simp only [gsGo, if_pos hyc, hcred]
  rcases hfe with hfe | hfe <;> rw [hfe]

/-- Witness for C5: the January 2024 wrap, applied both to the bare step and
to one loop iteration of the search. -/
theorem c5_witness :
    stepBack 2024 1 0 = (2023, 12, 1) ∧
    gsGo emptyFetch writeAlways "s1" "12345" 1 5 2024 1 0 sampleCfg sampleCfg
        0 0 =
      gsGo emptyFetch writeAlways "s1" "12345" 1 4 2023 12 1 sampleCfg
        sampleCfg 1 0 := by
  constructor
  · exact c5_step_back.2.2.1
  · have h := c5_step_back.2.2.2 emptyFetch writeAlways "s1" "12345" 1 4 2024 1
      0 sampleCfg sampleCfg 0 0 (by decide)
      (by decide) (Or.inl rfl)
    rw [h]
    simp [stepBack]

/-- Claim C6: when the credentials of a section resolve to `None`,
`get_score` returns failure without making a single HTTP call (the fetch
counter is returned unchanged). -/
theorem c6_missing_credentials_exhausted (fetch : Nat → FetchResult)
    (writeOk : Nat → Bool) (property_id : String) (year month : Int)
    (section_name : String) (cfg file : Config) (maxY fuel calls writes : Nat)
    (hc : get_credentials_from_config cfg section_name = none)
    (hfuel : 1 ≤ fuel) :
    get_score fetch writeOk property_id year month section_name cfg file maxY
      fuel calls writes = some (.failure, cfg, file, calls, writes) := by
  unfold get_score
  by_cases hsec : section_name = weatherSentinel
  · rw [if_pos hsec]
  · rw [if_neg hsec]
    obtain ⟨f, rfl⟩ : ∃ f, fuel = f + 1 := ⟨fuel - 1, by omega⟩
    simp only [gsGo, if_pos (Nat.zero_le maxY), hc]

/-- Witness for C6: a section with an endpoint but no credentials fails
immediately with zero fetches. -/
theorem c6_witness :
    get_score emptyFetch writeAlways "123" 2024 5 "p1" noAuthCfg noAuthCfg 1 26
      0 0 = some (.failure, noAuthCfg, noAuthCfg, 0, 0) :=
  c6_missing_credentials_exhausted emptyFetch writeAlways "123" 2024 5 "p1"
    noAuthCfg noAuthCfg 1 26 0 0 (by decide) (by decide)

/-- Claim C4: starting at `(2024, 3)` with fetches `[Empty, Empty,
Found "75"]`, the search succeeds with `(2024, 1)` after exactly 3 fetches,
and the endpoint written for the section contains `year=2024&month=1`. -/
theorem c4_scenario :
    get_score c4Fetch writeAlways "12345" 2024 3 "s1" sampleCfg sampleCfg 1 26
        0 0 = some (.success 2024 1, c4Final, c4Final, 3, 1) ∧
    ∃ u pre post, cfgGet c4Final "s1" "endpoint" = some u ∧
      u = pre ++ "year=2024&month=1" ++ post := by
  refine ⟨by decide,
    "https://portfoliomanager.energystar.gov/ws/property/12345/metrics?year=2024&month=1",
    "https://portfoliomanager.energystar.gov/ws/property/12345/metrics?", "",
    by decide, by decide⟩

/-- Claim C2 is what the source intended but not what it does: a section
whose credentials resolve to `None` is logged as skipped, yet the tally
counts it under `Error`: the dead `else` arm after `elif not success` can
never add to `Skipped`.  At this failing input the run completes with
`error = 1` and `skipped = 0`, where the claim demands `skipped = 1`. -/
theorem c2_missing_credentials_counted_as_error :
    main emptyFetch writeAlways 2024 5 26 noAuthCfg =
      some (⟨0, 1, 0⟩, noAuthCfg, [Outcome.errored]) := by
  decide

/-- Counterexample to claim C1 as stated: starting at `(2024, 12)` with
every fetch empty, the search makes 24 month-attempts before giving up,
not at most 13. -/
theorem c1_counterexample :
    get_score emptyFetch writeAlways "12345" 2024 12 "s1" sampleCfg sampleCfg
        1 26 0 0 = some (.failure, sampleCfg, sampleCfg, 24, 0) ∧
    13 < 24 := by
  exact ⟨by decide, by decide⟩

/-- Claim C1 amended: for `max_years_to_check = 1` and a starting month in
`1..12`, a search that only ever sees `Empty` or `HttpError` results
terminates in failure after at most 24 month-attempts (13 holds only when
the starting month is January). -/
theorem c1_amended_bound (fetch : Nat → FetchResult) (writeOk : Nat → Bool)
    (property_id section_name : String) (year month : Int) (cfg file : Config)
    (fuel : Nat)
    (hf : ∀ n, fetch n = .empty ∨ fetch n = .httpError)
    (hm1 : 1 ≤ month) (hm2 : month ≤ 12) (hfuel : 26 ≤ fuel) :
    ∃ ret cfg2 file2 calls writes,
      get_score fetch writeOk property_id year month section_name cfg file 1
        fuel 0 0 = some (ret, cfg2, file2, calls, writes) ∧
      ret = .failure ∧ calls ≤ 24 := by
  unfold get_score
  by_cases hsec : section_name = weatherSentinel
  · rw [if_pos hsec]
    exact ⟨.failure, cfg, file, 0, 0, rfl, rfl, by omega⟩
  · rw [if_neg hsec]
    cases hcred : get_credentials_from_config cfg section_name with
    | none =>
      obtain ⟨f, rfl⟩ : ∃ f, fuel = f + 1 := ⟨fuel - 1, by omega⟩
      refine ⟨.failure, cfg, file, 0, 0, ?_, rfl, by omega⟩
      simp only [gsGo, if_pos (Nat.zero_le 1), hcred]
    | some c =>
      refine ⟨.failure, cfg, file, 0 + (month.toNat + 12 * (1 - 0)), 0, ?_,
        rfl, by omega⟩
      exact gsGo_exhaust fetch writeOk section_name property_id 1
        (fun n => (hf n).elim Or.inl (fun h => Or.inr (Or.inl h))) fuel year
        month 0 cfg file 0 0 (by rw [hcred]; rfl) hm1 hm2 (by omega) (by omega)

/-- Witness for the amended C1 at the worst-case starting month. -/
theorem c1_amended_witness :
    ∃ ret cfg2 file2 calls writes,
      get_score emptyFetch writeAlways "12345" 2024 12 "s1" sampleCfg
        sampleCfg 1 26 0 0 = some (ret, cfg2, file2, calls, writes) ∧
      ret = .failure ∧ calls ≤ 24 :=
  c1_amended_bound emptyFetch writeAlways "12345" "s1" 2024 12 sampleCfg
    sampleCfg 26 (fun n => Or.inl rfl) (by decide) (by decide) (by decide)

/-- Counterexample to claim C3 as stated: the config write after a found
score fails (first write attempt returns failure), yet the run is not
aborted: the search steps back one month, fetches again, and returns
success for `(2024, 2)` after a second, successful write. -/
theorem c3_counterexample :
    writeFailFirst 0 = false ∧
    get_score foundFetch writeFailFirst "12345" 2024 3 "s1" sampleCfg
        sampleCfg 1 26 0 0 =
      some (.success 2024 2, c3Final, c3Final, 2, 2) := by
  exact ⟨rfl, by decide⟩

/-- Claim C3 amended: a failed config write after a found score is caught
by the blanket exception handler exactly like an HTTP error: the search
decrements the month and keeps going, so with every fetch finding a score
and every write failing it exhausts the window after `month + 12`
attempted writes, with the on-disk file never modified and no error
propagated. -/
theorem c3_amended_write_error_absorbed (fetch : Nat → FetchResult)
    (writeOk : Nat → Bool) (property_id section_name : String)
    (year month : Int) (cfg file : Config) (fuel : Nat)
    (hf : ∀ n, ∃ sc, fetch n = .found sc) (hw : ∀ w, writeOk w = false)
    (hsec : section_name ≠ weatherSentinel)
    (hc : (get_credentials_from_config cfg section_name).isSome = true)
    (hm1 : 1 ≤ month) (hm2 : month ≤ 12) (hfuel : 26 ≤ fuel) :
    ∃ cfg2,
      get_score fetch writeOk property_id year month section_name cfg file 1
        fuel 0 0 =
      some (.failure, cfg2, file, month.toNat + 12, month.toNat + 12) := by
  unfold get_score
  rw [if_neg hsec]
  obtain ⟨cfg2, h⟩ := gsGo_exhaust_wfail fetch writeOk section_name
    property_id 1 hf hw fuel year month 0 cfg file 0 0 hc hm1 hm2 (by omega)
    (by omega)
  refine ⟨cfg2, ?_⟩
  rw [h]
  norm_num

/-- Witness for the amended C3: all writes failing from March 2024 gives
15 attempted writes and an unchanged file. -/
theorem c3_amended_witness :
    ∃ cfg2,
      get_score foundFetch writeNever "12345" 2024 3 "s1" sampleCfg sampleCfg
        1 26 0 0 = some (.failure, cfg2, sampleCfg, 15, 15) :=
  c3_amended_write_error_absorbed foundFetch writeNever "12345" "s1" 2024 3
    sampleCfg sampleCfg 26 (fun n => ⟨"75", rfl⟩) (fun w => rfl) (by decide)
    (by decide) (by decide) (by decide) (by decide)

/-- Claim C7: after the pre-pass, every non-sentinel section that has a
`polling_interval` option holds the sentinel value `"999999"`; the
`modified` flag driving the single persist is set iff some non-sentinel
section actually held a different value; and when nothing changed, the
config is left untouched (so nothing is persisted). -/
theorem c7_pre_pass (cfg : Config) (hnd : (sectionNames cfg).Nodup) :
    (∀ n ∈ sectionNames cfg, n ≠ weatherSentinel →
      ∀ v, cfgGet (prePassGo (sectionNames cfg) cfg false).1 n
          "polling_interval" = some v → v = "999999") ∧
    ((prePassGo (sectionNames cfg) cfg false).2 = true ↔
      ∃ n ∈ sectionNames cfg, n ≠ weatherSentinel ∧
        ∃ v, cfgGet cfg n "polling_interval" = some v ∧ v ≠ "999999") ∧
    ((prePassGo (sectionNames cfg) cfg false).2 = false →
      (prePassGo (sectionNames cfg) cfg false).1 = cfg) := by
  refine ⟨fun n hn => prePassGo_post (sectionNames cfg) cfg false hnd n hn,
    ?_, ?_⟩
  · rw [prePassGo_modified (sectionNames cfg) cfg false hnd]
    simp only [Bool.false_or, List.any_eq_true, needsPrePass_iff]
  · intro h
    have hmod := prePassGo_modified (sectionNames cfg) cfg false hnd
    rw [h] at hmod
    simp only [Bool.false_or] at hmod
    have hall : ∀ n ∈ sectionNames cfg, needsPrePass cfg n = false := by
      intro n hn
      exact Bool.eq_false_iff.mpr (List.any_eq_false.mp hmod.symm n hn)
    rw [prePassGo_noop (sectionNames cfg) cfg false hall]

/-- Witness for C7 on a two-section config (one stale property section and
the sentinel). -/
theorem c7_witness :
    (∀ n ∈ sectionNames prePassCfg, n ≠ weatherSentinel →
      ∀ v, cfgGet (prePassGo (sectionNames prePassCfg) prePassCfg false).1 n
          "polling_interval" = some v → v = "999999") ∧
    ((prePassGo (sectionNames prePassCfg) prePassCfg false).2 = true ↔
      ∃ n ∈ sectionNames prePassCfg, n ≠ weatherSentinel ∧
        ∃ v, cfgGet prePassCfg n "polling_interval" = some v ∧
          v ≠ "999999") ∧
    ((prePassGo (sectionNames prePassCfg) prePassCfg false).2 = false →
      (prePassGo (sectionNames prePassCfg) prePassCfg false).1 = prePassCfg) :=
  c7_pre_pass prePassCfg (by decide)

theorem main_empty_run (fetch : Nat → FetchResult) (writeOk : Nat → Bool)
    (y m : Int) (fuel : Nat) (file : Config)
    (hf : ∀ n, fetch n = .empty) (hm1 : 1 ≤ m) (hm2 : m ≤ 12)
    (hfuel : 26 ≤ fuel) :
    ∃ t tr, main fetch writeOk y m fuel file =
      some (t, (if (prePassGo (sectionNames file) file false).2
        then (prePassGo (sectionNames file) file false).1 else file), tr) := by
  simp only [main]
  split
  case isTrue he =>
    have hS : sectionNames file = [] := List.isEmpty_iff.mp he
    refine ⟨⟨0, 0, 0⟩, [], ?_⟩
    rw [hS]
    simp [prePassGo]
  case isFalse he =>
    obtain ⟨t, calls, tr, hmp⟩ := mainPass_empty_noop fetch writeOk y m fuel
      hf hm1 hm2 hfuel (sectionNames file)
      (if (prePassGo (sectionNames file) file false).2
        then (prePassGo (sectionNames file) file false).1 else file)
      (if (prePassGo (sectionNames file) file false).2
        then (prePassGo (sectionNames file) file false).1 else file)
      0 0 ⟨0, 0, 0⟩ []
    rw [hmp]
    exact ⟨t, tr, rfl⟩

/-- Claim C8: with no new data (every fetch of both runs empty), running
the orchestrator a second time leaves every section's `endpoint` and
`polling_interval` values in the config file exactly as the first run left
them (in fact the whole file is unchanged: the second pre-pass finds every
polling interval already parked and changes nothing, and the exhausted
searches never write). -/
theorem c8_idempotent (fetch fetch2 : Nat → FetchResult)
    (writeOk writeOk2 : Nat → Bool) (y1 m1 y2 m2 : Int) (fuel : Nat)
    (file : Config) (hnd : (sectionNames file).Nodup)
    (hf1 : ∀ n, fetch n = .empty) (hf2 : ∀ n, fetch2 n = .empty)
    (hm11 : 1 ≤ m1) (hm12 : m1 ≤ 12) (hm21 : 1 ≤ m2) (hm22 : m2 ≤ 12)
    (hfuel : 26 ≤ fuel) :
    ∃ t1 file1 tr1 t2 file2 tr2,
      main fetch writeOk y1 m1 fuel file = some (t1, file1, tr1) ∧
      main fetch2 writeOk2 y2 m2 fuel file1 = some (t2, file2, tr2) ∧
      ∀ s, cfgGet file2 s "endpoint" = cfgGet file1 s "endpoint" ∧
        cfgGet file2 s "polling_interval" =
          cfgGet file1 s "polling_interval" := by
  obtain ⟨t1, tr1, h1⟩ := main_empty_run fetch writeOk y1 m1 fuel file hf1
    hm11 hm12 hfuel
  set pp := prePassGo (sectionNames file) file false with hpp
  set file1 := if pp.2 then pp.1 else file with hfile1
  have hnames1 : sectionNames file1 = sectionNames file := by
    by_cases hp : pp.2
    · rw [hfile1, if_pos hp, hpp]
      exact prePassGo_names _ _ _
    · rw [hfile1, if_neg hp]
  have hall : ∀ n ∈ sectionNames file1, needsPrePass file1 n = false := by
    intro n hn
    rw [hnames1] at hn
    by_cases hp : pp.2
    · have hfeq : file1 = pp.1 := by rw [hfile1, if_pos hp]
      rw [hfeq]
      by_cases hsent : n = weatherSentinel
      · simp [needsPrePass, hsent]
      · unfold needsPrePass cfgHasOption
        cases hg : cfgGet pp.1 n "polling_interval" with
        | none => simp
        | some v =>
          have hv := prePassGo_post (sectionNames file) file false hnd n hn
            hsent v (by rw [← hpp]; exact hg)
          simp [hv]
    · have hfeq : file1 = file := by rw [hfile1, if_neg hp]
      rw [hfeq]
      have hmod := prePassGo_modified (sectionNames file) file false hnd
      rw [← hpp] at hmod
      have hp2 : pp.2 = false := Bool.eq_false_iff.mpr hp
      rw [hp2] at hmod
      simp only [Bool.false_or] at hmod
      exact Bool.eq_false_iff.mpr (List.any_eq_false.mp hmod.symm n hn)
  obtain ⟨t2, tr2, h2⟩ := main_empty_run fetch2 writeOk2 y2 m2 fuel file1 hf2
    hm21 hm22 hfuel
  have hnoop : prePassGo (sectionNames file1) file1 false = (file1, false) :=
    prePassGo_noop (sectionNames file1) file1 false hall
  rw [hnoop] at h2
  refine ⟨t1, file1, tr1, t2, file1, tr2, h1, ?_, fun s => ⟨rfl, rfl⟩⟩
  simpa using h2

/-- Witness for C8 on a one-section config. -/
theorem c8_witness :
    ∃ t1 file1 tr1 t2 file2 tr2,
      main emptyFetch writeAlways 2024 5 26 sampleCfg =
        some (t1, file1, tr1) ∧
      main emptyFetch writeAlways 2024 6 26 file1 = some (t2, file2, tr2) ∧
      ∀ s, cfgGet file2 s "endpoint" = cfgGet file1 s "endpoint" ∧
        cfgGet file2 s "polling_interval" =
          cfgGet file1 s "polling_interval" :=
  c8_idempotent emptyFetch emptyFetch writeAlways writeAlways 2024 5 2024 6
    26 sampleCfg (by decide) (fun n => rfl) (fun n => rfl) (by decide)
    (by decide) (by decide) (by decide) (by decide)

/-- Claim C10: whenever the main pass completes, the three counters sum to
the number of sections, each section contributes exactly one outcome, the
`Skipped` counter counts exactly the three pre-search skip branches, and a
section that reached `get_score` is tallied as `Updated` on success and
`Error` otherwise, never as `Skipped`. -/
theorem c10_tally (fetch : Nat → FetchResult) (writeOk : Nat → Bool)
    (year month : Int) (fuel : Nat) (file : Config) (t : Tally)
    (fileF : Config) (tr : List Outcome)
    (h : main fetch writeOk year month fuel file = some (t, fileF, tr)) :
    t.updated + t.error + t.skipped = (sectionNames file).length ∧
    t.updated = (tr.filter (fun o => o = Outcome.updatedOk)).length ∧
    t.error = (tr.filter (fun o => o = Outcome.errored)).length ∧
    t.skipped = (tr.filter (fun o => Outcome.isSkip o)).length := by
  simp only [main] at h
  split at h
  case isTrue he =>
    have hS : sectionNames file = [] := List.isEmpty_iff.mp he
    simp only [Option.some_inj, Prod.mk.injEq] at h
    obtain ⟨h1, _, h3⟩ := h
    rw [← h1, ← h3, hS]
    simp
  case isFalse he =>
    cases hmp : mainPass fetch writeOk year month 1 fuel (sectionNames file)
        (if (prePassGo (sectionNames file) file false).2
          then (prePassGo (sectionNames file) file false).1 else file)
        (if (prePassGo (sectionNames file) file false).2
          then (prePassGo (sectionNames file) file false).1 else file)
        0 0 ⟨0, 0, 0⟩ [] with
    | none =>
      rw [hmp] at h
      exact absurd h (by simp)
    | some res =>
      rw [hmp] at h
      obtain ⟨t2, cfg2, file2, calls2, writes2, tr2⟩ := res
      dsimp only at h
      simp only [Option.some_inj, Prod.mk.injEq] at h
      obtain ⟨ht, _, htr⟩ := h
      obtain ⟨ds, hds, hlen, hu, herr, hsk⟩ := mainPass_counts fetch writeOk
        year month 1 fuel (sectionNames file) _ _ 0 0 ⟨0, 0, 0⟩ [] t2 cfg2
        file2 calls2 writes2 tr2 hmp
      subst ht htr
      simp only [List.nil_append] at hds
      rw [hds]
      have hpart := outcome_filter_partition ds
      dsimp only at hu herr hsk
      refine ⟨?_, ?_, ?_, ?_⟩ <;> omega

/-- Witness for C10 on a completed run over a one-section config with
missing credentials. -/
theorem c10_witness :
    (⟨0, 1, 0⟩ : Tally).updated + (⟨0, 1, 0⟩ : Tally).error +
        (⟨0, 1, 0⟩ : Tally).skipped = (sectionNames noAuthCfg).length ∧
    (⟨0, 1, 0⟩ : Tally).updated =
      (([Outcome.errored] : List Outcome).filter
        (fun o => o = Outcome.updatedOk)).length ∧
    (⟨0, 1, 0⟩ : Tally).error =
      (([Outcome.errored] : List Outcome).filter
        (fun o => o = Outcome.errored)).length ∧
    (⟨0, 1, 0⟩ : Tally).skipped =
      (([Outcome.errored] : List Outcome).filter
        (fun o => Outcome.isSkip o)).length :=
  c10_tally emptyFetch writeAlways 2024 5 26 noAuthCfg ⟨0, 1, 0⟩ noAuthCfg
    [Outcome.errored] (by decide)

end EnergyScript
